import Mathlib

/-!
Verification of the scan-and-categorize core of
`src/DriveFileCounterWStatus02B.py`.

The embedding models:

* `splitext` — CPython's `ntpath.splitext` (`genericpath._splitext` with
  `sep = '\\'`, `altsep = '/'`, `extsep = '.'`);
* `FILE_CATEGORIES` / `categorize_file` — the category table, as an ordered
  list of (label, extension list) pairs, since Python 3.7 dicts iterate in
  insertion order, and the extension lookup;
* a static filesystem `FS` (directories carry an accessibility flag;
  listing an inaccessible directory raises `PermissionError` in Python);
* `walkFS` — `os.walk(path)` with the default `onerror = None`, which
  silently swallows every `OSError` raised by `scandir`, including the one
  for a missing or unreadable root, and never descends into a directory it
  could not list;
* `count_files_with_details` — the two-pass scan.  The `Except` layer
  models Python exceptions escaping the function; the scan itself never
  raises (per-directory `PermissionError` is caught, and `os.walk`
  swallows discovery errors), so the embedding always returns `.ok`.
  The returned list of `(current, total)` pairs records the
  `progress_bar(i, total_dirs)` invocations in order.

A root argument of `none` models a path that does not exist on the
filesystem (`os.scandir` raises `FileNotFoundError`, an `OSError`).
-/

/-- A node of the static filesystem: a plain file, or a directory with a
name, an accessibility flag (`false` means listing it raises
`PermissionError`) and an ordered list of child entries, in the order
`os.scandir` reports them. -/
inductive FS where
  | file (name : String) : FS
  | dir (name : String) (accessible : Bool) (children : List FS) : FS

/-- `p.rfind(c)` on the character list of a Python string: index of the last
occurrence, `-1` when absent. -/
def rfind (cs : List Char) (c : Char) : Int :=
  match cs.reverse.findIdx? (fun x => x = c) with
  | some i => (cs.length : Int) - 1 - i
  | none => -1

/-- `os.path.splitext` (ntpath flavour): split off the extension from the
last dot of the basename, unless every character of the basename before
that dot is itself a dot (so dotfiles like `.bashrc` have no extension). -/
def splitext (p : String) : String × String :=
  let cs := p.data
  let sepIndex := max (rfind cs '\\') (rfind cs '/')
  let dotIndex := rfind cs '.'
  if sepIndex < dotIndex then
    let start := (sepIndex + 1).toNat
    let stop := dotIndex.toNat
    if ((cs.drop start).take (stop - start)).any (fun ch => ch ≠ '.') then
      (⟨cs.take stop⟩, ⟨cs.drop stop⟩)
    else (p, "")
  else (p, "")

/-- Python's `str.lower()`, character by character (exact on the ASCII
strings the category table and the claims use). -/
def strLower (s : String) : String := ⟨s.data.map Char.toLower⟩

/-- The category table of the source, in source (= dict insertion) order.
Note `".bat"` and `".cmd"` occur under both `"Scripts"` and
`"Applications"`. -/
def FILE_CATEGORIES : List (String × List String) :=
  [("Images", [".jpg", ".jpeg", ".png", ".gif", ".bmp", ".tiff", ".svg", ".webp"]),
   ("Videos", [".mp4", ".avi", ".mov", ".mkv", ".wmv", ".flv", ".webm"]),
   ("Audio", [".mp3", ".wav", ".flac", ".aac", ".ogg", ".m4a"]),
   ("Documents", [".txt", ".doc", ".docx", ".pdf", ".xls", ".xlsx", ".ppt", ".pptx", ".csv"]),
   ("Scripts", [".py", ".js", ".ps1", ".sh", ".bat", ".cmd"]),
   ("Archives", [".zip", ".rar", ".7z", ".tar", ".gz"]),
   ("Applications", [".exe", ".msi", ".bat", ".cmd"])]

/-- `categorize_file`: lowercase the extension, return the label of the
first table entry containing it, else `"Other"`. -/
def categorize_file (file_path : String) : String :=
  let ext := strLower (splitext file_path).2
  match FILE_CATEGORIES.find? (fun c => c.2.contains ext) with
  | some c => c.1
  | none => "Other"

/-- The triple the Python function returns (plus, in the embedding, the
defaultdict is an insertion-ordered association list). -/
structure ScanResult where
  total_files : Nat
  folder_count : Nat
  category_counts : List (String × Nat)
deriving DecidableEq, Repr

/-- `category_counts[category] += 1` on a `defaultdict(int)`: bump an
existing key in place, or append a fresh key (Python dicts keep insertion
order). -/
def incr (counts : List (String × Nat)) (k : String) : List (String × Nat) :=
  match counts with
  | [] => [(k, 1)]
  | (k', v) :: rest => if k' = k then (k', v + 1) :: rest else (k', v) :: incr rest k

/-- One iteration of the `for entry in entries` loop of the counting pass. -/
def scanEntry (st : ScanResult) (e : FS) : ScanResult :=
  match e with
  | .file name =>
      { st with total_files := st.total_files + 1,
                category_counts := incr st.category_counts (categorize_file name) }
  | .dir _ _ _ => { st with folder_count := st.folder_count + 1 }

/-- One iteration of the `for i, root in enumerate(all_dirs, ...)` loop:
`os.scandir(root)` succeeds on an accessible directory and its entries are
tallied; on an inaccessible one it raises `PermissionError`, which the
`except PermissionError: pass` clause swallows, leaving the state as is. -/
def scanDir (st : ScanResult) (d : FS) : ScanResult :=
  match d with
  | .dir _ true cs => cs.foldl scanEntry st
  | _ => st

mutual

/-- `os.walk(path)` (top-down, `onerror = None`): an accessible directory
is yielded and then each child is walked in `scandir` order; a plain file
or an inaccessible directory yields nothing (`scandir` raises, the error is
swallowed, and the walk does not descend). -/
def walkFS : FS → List FS
  | .file _ => []
  | .dir n a cs => if a then .dir n a cs :: walkList cs else []

def walkList : List FS → List FS
  | [] => []
  | c :: cs => walkFS c ++ walkList cs

end

/-- The error taxonomy of the design spec; the source never raises either
(the `Except` layer below always takes `.ok`). -/
inductive ScanError where
  | NotFound
  | PermissionDenied
deriving DecidableEq, Repr

/-- `all_dirs` of the discovery pass: `os.walk` on a missing root raises
`FileNotFoundError` inside `scandir`, which `walk` swallows, yielding no
directories at all. -/
def allDirs : Option FS → List FS
  | none => []
  | some f => walkFS f

/-- The `progress_bar(i, total_dirs)` invocations of the counting pass, in
order: `i` runs from `1` to `total_dirs`. -/
def progressCalls (total : Nat) : List (Nat × Nat) :=
  (List.range total).map (fun i => (i + 1, total))

/-- `count_files_with_details(path)`: discovery pass, then counting pass
with progress reporting.  Returns the accumulated counts and the recorded
progress invocations.  No exception escapes the function, so the result is
always `.ok`. -/
def count_files_with_details (root : Option FS) :
    Except ScanError (ScanResult × List (Nat × Nat)) :=
  let dirs := allDirs root
  let st := dirs.foldl scanDir ⟨0, 0, []⟩
  .ok (st, progressCalls dirs.length)

/-- Is this node a plain file?  (`entry.is_file()` on the static model.) -/
def isFile : FS → Bool
  | .file _ => true
  | .dir _ _ _ => false

/-- Is this node a directory?  (`entry.is_dir()` on the static model.) -/
def isDir : FS → Bool
  | .file _ => false
  | .dir _ _ _ => true

/-- Files the counting pass tallies while processing this one directory:
its immediate file entries if it is accessible, nothing otherwise. -/
def dirFiles : FS → Nat
  | .dir _ true cs => cs.countP isFile
  | _ => 0

/-- Folders the counting pass tallies while processing this one directory:
its immediate subdirectory entries if it is accessible, nothing otherwise. -/
def dirFolders : FS → Nat
  | .dir _ true cs => cs.countP isDir
  | _ => 0

mutual

/-- Follows the spec's words for the tolerated-denial behaviour: an
accessible directory contributes its immediate file entries and whatever
its subtrees contribute; a denied directory contributes nothing at all. -/
def specFiles : FS → Nat
  | .file _ => 0
  | .dir _ a cs => if a then cs.countP isFile + specFilesList cs else 0

def specFilesList : List FS → Nat
  | [] => 0
  | c :: cs => specFiles c + specFilesList cs

end

mutual

/-- Folder analogue of `specFiles`: an accessible directory contributes its
immediate subdirectory entries plus its subtrees; a denied one nothing. -/
def specFolders : FS → Nat
  | .file _ => 0
  | .dir _ a cs => if a then cs.countP isDir + specFoldersList cs else 0

def specFoldersList : List FS → Nat
  | [] => 0
  | c :: cs => specFolders c + specFoldersList cs

end

mutual

/-- Every directory of the tree, the node itself included, is accessible. -/
def allAccessible : FS → Bool
  | .file _ => true
  | .dir _ a cs => a && allAccessibleList cs

def allAccessibleList : List FS → Bool
  | [] => true
  | c :: cs => allAccessible c && allAccessibleList cs

end

/-- `sum(category_counts.values())`. -/
def sumCounts (l : List (String × Nat)) : Nat := (l.map Prod.snd).sum

/-- The eight labels `categorize_file` can produce: the seven table labels
plus `"Other"`. -/
def categoryLabels : List String :=
  ["Images", "Videos", "Audio", "Documents", "Scripts", "Archives", "Applications", "Other"]


/-- Structural induction for the nested tree: to prove `P` everywhere it
suffices to handle a file and a directory whose children all satisfy `P`. -/
theorem FS.induct (P : FS → Prop) (hfile : ∀ n, P (.file n))
    (hdir : ∀ n a cs, (∀ c ∈ cs, P c) → P (.dir n a cs)) : ∀ f, P f
  | .file n => hfile n
  | .dir n a cs => hdir n a cs (fun c hc => FS.induct P hfile hdir c)
termination_by f => sizeOf f
decreasing_by
  have h := List.sizeOf_lt_of_mem hc
  simp only [FS.dir.sizeOf_spec]
  omega

/-- Unfolding lemma for the scan: discovery list, then fold, then the
recorded progress calls. -/
theorem count_eq (root : Option FS) :
    count_files_with_details root =
      .ok ((allDirs root).foldl scanDir ⟨0, 0, []⟩,
           progressCalls (allDirs root).length) := rfl

example : count_files_with_details none = .ok (⟨0, 0, []⟩, []) := rfl

example :
    count_files_with_details (some (.dir "root" true
      [.file "a.jpg", .file "b.mp3", .file "c.xyz", .dir "sub" true []])) =
    .ok (⟨3, 1, [("Images", 1), ("Audio", 1), ("Other", 1)]⟩, [(1, 2), (2, 2)]) := by
  rw [count_eq]
  have h : allDirs (some (.dir "root" true
      [.file "a.jpg", .file "b.mp3", .file "c.xyz", .dir "sub" true []])) =
      [.dir "root" true [.file "a.jpg", .file "b.mp3", .file "c.xyz", .dir "sub" true []],
       .dir "sub" true []] := by
    simp [allDirs, walkFS, walkList]
  rw [h]
  rfl

example : categorize_file "run.BAT" = "Scripts" := rfl
example : categorize_file ".jpg" = "Other" := rfl
example : categorize_file "x.Py" = "Scripts" := rfl
example : categorize_file "a.tar" = "Archives" := rfl
example : categorize_file "noext" = "Other" := rfl
example : count_files_with_details (some (.dir "r" false [.file "a.jpg"])) =
    .ok (⟨0, 0, []⟩, []) := by
  rw [count_eq]
  have h : allDirs (some (.dir "r" false [.file "a.jpg"])) = [] := by
    simp [allDirs, walkFS]
  rw [h]
  rfl

/-- Bumping one key of the defaultdict raises the total of its values by
exactly one. -/
theorem sumCounts_incr (l : List (String × Nat)) (k : String) :
    sumCounts (incr l k) = sumCounts l + 1 := by
  induction l with
  | nil => simp [incr, sumCounts]
  | cons p rest ih =>
    obtain ⟨k', v⟩ := p
    by_cases h : k' = k
    · simp [incr, h, sumCounts]
      omega
    · simp [incr, h, sumCounts] at ih ⊢
      omega

/-- Effect of the inner entry loop on the three accumulators: one file
tally and one category tally per file entry, one folder tally per
subdirectory entry. -/
theorem foldl_scanEntry (cs : List FS) (st : ScanResult) :
    (cs.foldl scanEntry st).total_files = st.total_files + cs.countP isFile ∧
    (cs.foldl scanEntry st).folder_count = st.folder_count + cs.countP isDir ∧
    sumCounts (cs.foldl scanEntry st).category_counts =
      sumCounts st.category_counts + cs.countP isFile := by
  induction cs generalizing st with
  | nil => simp
  | cons e rest ih =>
    obtain ⟨ih1, ih2, ih3⟩ := ih (scanEntry st e)
    cases e with
    | file name =>
      simp only [scanEntry] at ih1 ih2 ih3
      simp only [sumCounts_incr] at ih3
      refine ⟨?_, ?_, ?_⟩ <;>
        simp [List.foldl_cons, scanEntry, ih1, ih2, ih3, isFile, isDir,
          List.countP_cons] <;> omega
    | dir n a cs' =>
      simp only [scanEntry] at ih1 ih2 ih3
      refine ⟨?_, ?_, ?_⟩ <;>
        simp [List.foldl_cons, scanEntry, ih1, ih2, ih3, isFile, isDir,
          List.countP_cons] <;> omega

/-- Effect of processing one directory of `all_dirs` on the accumulators. -/
theorem scanDir_spec (st : ScanResult) (d : FS) :
    (scanDir st d).total_files = st.total_files + dirFiles d ∧
    (scanDir st d).folder_count = st.folder_count + dirFolders d ∧
    sumCounts (scanDir st d).category_counts =
      sumCounts st.category_counts + dirFiles d := by
  cases d with
  | file name => simp [scanDir, dirFiles, dirFolders]
  | dir n a cs =>
    cases a with
    | false => simp [scanDir, dirFiles, dirFolders]
    | true =>
      obtain ⟨h1, h2, h3⟩ := foldl_scanEntry cs st
      exact ⟨by simpa [scanDir, dirFiles] using h1,
             by simpa [scanDir, dirFolders] using h2,
             by simpa [scanDir, dirFiles] using h3⟩

/-- Effect of the whole counting pass on the accumulators. -/
theorem foldl_scanDir (l : List FS) (st : ScanResult) :
    (l.foldl scanDir st).total_files = st.total_files + (l.map dirFiles).sum ∧
    (l.foldl scanDir st).folder_count = st.folder_count + (l.map dirFolders).sum ∧
    sumCounts (l.foldl scanDir st).category_counts =
      sumCounts st.category_counts + (l.map dirFiles).sum := by
  induction l generalizing st with
  | nil => simp
  | cons d rest ih =>
    obtain ⟨ih1, ih2, ih3⟩ := ih (scanDir st d)
    obtain ⟨h1, h2, h3⟩ := scanDir_spec st d
    refine ⟨?_, ?_, ?_⟩ <;> simp [List.foldl_cons, ih1, ih2, ih3, h1, h2, h3] <;> omega

/-- List form of `walk_files`, with the member hypothesis supplied by the
tree induction. -/
theorem walk_files_list (cs : List FS)
    (ih : ∀ c ∈ cs, ((walkFS c).map dirFiles).sum = specFiles c) :
    ((walkList cs).map dirFiles).sum = specFilesList cs := by
  induction cs with
  | nil => simp [walkList, specFilesList]
  | cons c rest ihl =>
    simp [walkList, specFilesList, ih c (by simp),
      ihl (fun x hx => ih x (by simp [hx]))]

/-- Summing per-directory file tallies over the walk equals the spec's
recursive reachable-file count. -/
theorem walk_files (f : FS) : ((walkFS f).map dirFiles).sum = specFiles f := by
  induction f using FS.induct with
  | hfile n => simp [walkFS, specFiles]
  | hdir n a cs ih =>
    cases a with
    | false => simp [walkFS, specFiles]
    | true => simp [walkFS, specFiles, dirFiles, walk_files_list cs ih]

/-- List form of `walk_folders`. -/
theorem walk_folders_list (cs : List FS)
    (ih : ∀ c ∈ cs, ((walkFS c).map dirFolders).sum = specFolders c) :
    ((walkList cs).map dirFolders).sum = specFoldersList cs := by
  induction cs with
  | nil => simp [walkList, specFoldersList]
  | cons c rest ihl =>
    simp [walkList, specFoldersList, ih c (by simp),
      ihl (fun x hx => ih x (by simp [hx]))]

/-- Summing per-directory folder tallies over the walk equals the spec's
recursive reachable-folder count. -/
theorem walk_folders (f : FS) : ((walkFS f).map dirFolders).sum = specFolders f := by
  induction f using FS.induct with
  | hfile n => simp [walkFS, specFolders]
  | hdir n a cs ih =>
    cases a with
    | false => simp [walkFS, specFolders]
    | true => simp [walkFS, specFolders, dirFolders, walk_folders_list cs ih]

/-- On a fully accessible tree, the walk enumerates one directory per
subdirectory entry plus the node itself (when the node is a directory). -/
theorem walk_length_acc (f : FS) : allAccessible f = true →
    (walkFS f).length = specFolders f + (if isDir f then 1 else 0) := by
  induction f using FS.induct with
  | hfile n => intro _; simp [walkFS, specFolders, isDir]
  | hdir n a cs ih =>
    intro hacc
    simp only [allAccessible, Bool.and_eq_true] at hacc
    obtain ⟨rfl, hcs⟩ : a = true ∧ allAccessibleList cs = true := hacc
    have hlist : (walkList cs).length = cs.countP isDir + specFoldersList cs := by
      induction cs with
      | nil => simp [walkList, specFoldersList]
      | cons c rest ihl =>
        simp only [allAccessibleList, Bool.and_eq_true] at hcs
        obtain ⟨hc, hrest⟩ := hcs
        have h1 := ih c (by simp) hc
        have h2 := ihl (fun x hx => ih x (by simp [hx])) hrest
        cases c with
        | file nm =>
          simp [walkList, walkFS, List.countP_cons, specFoldersList, specFolders,
            isDir, h2]
        | dir nm a' cs' =>
          simp [isDir] at h1
          simp [walkList, List.countP_cons, specFoldersList, isDir, h1, h2]
          omega
    simp [walkFS, specFolders, isDir, hlist]

/-- One progress invocation per discovered directory. -/
theorem progressCalls_length (n : Nat) : (progressCalls n).length = n := by
  simp [progressCalls]

/-- The `i`-th progress invocation (0-based `i`) reports `(i + 1, n)`. -/
theorem progressCalls_get (n i : Nat) (hi : i < (progressCalls n).length) :
    (progressCalls n).get ⟨i, hi⟩ = (i + 1, n) := by
  simp [progressCalls]

/-- The reported `current` values are strictly increasing. -/
theorem progressCalls_chain (n : Nat) :
    List.Chain' (fun a b => a.1 < b.1) (progressCalls n) := by
  rw [List.chain'_iff_get]
  intro i hilt
  rw [progressCalls_get, progressCalls_get]
  simp

/-- With at least one directory, the first progress invocation is `(1, n)`. -/
theorem progressCalls_head (n : Nat) (hn : 1 ≤ n) :
    (progressCalls n).head? = some (1, n) := by
  obtain ⟨m, rfl⟩ : ∃ m, n = m + 1 := ⟨n - 1, by omega⟩
  simp [progressCalls, List.range_succ_eq_map]

/-- With at least one directory, the last progress invocation is `(n, n)`. -/
theorem progressCalls_last (n : Nat) (hn : 1 ≤ n) :
    (progressCalls n).getLast? = some (n, n) := by
  obtain ⟨m, rfl⟩ : ∃ m, n = m + 1 := ⟨n - 1, by omega⟩
  simp [progressCalls, List.range_succ]

/-- Inverting the always-`ok` result of a scan. -/
theorem count_ok_inv (root : Option FS) (st : ScanResult)
    (calls : List (Nat × Nat))
    (h : count_files_with_details root = .ok (st, calls)) :
    st = (allDirs root).foldl scanDir ⟨0, 0, []⟩ ∧
    calls = progressCalls (allDirs root).length := by
  rw [count_eq] at h
  simp only [Except.ok.injEq, Prod.mk.injEq] at h
  exact ⟨h.1.symm, h.2.symm⟩

/-- The discovery pass of the spec's sample tree finds the root and its
empty subfolder `sub`, in that order. -/
theorem sampleTree_allDirs :
    allDirs (some (FS.dir "root" true
      [.file "a.jpg", .file "b.mp3", .file "c.xyz", .dir "sub" true []])) =
      [FS.dir "root" true
        [.file "a.jpg", .file "b.mp3", .file "c.xyz", .dir "sub" true []],
       FS.dir "sub" true []] := by
  simp [allDirs, walkFS, walkList]

/-- Full scan of the spec's sample tree. -/
theorem sampleTree_count :
    count_files_with_details (some (FS.dir "root" true
      [.file "a.jpg", .file "b.mp3", .file "c.xyz", .dir "sub" true []])) =
      .ok (⟨3, 1, [("Images", 1), ("Audio", 1), ("Other", 1)]⟩, [(1, 2), (2, 2)]) := by
  rw [count_eq, sampleTree_allDirs]; rfl

/-- Scan of a tree whose subdirectory `locked` is denied: the scan
returns normally, `locked`'s entries are missing from every tally, and
`locked` itself is still counted as a folder of the root. -/
theorem deniedTree_count :
    count_files_with_details (some (FS.dir "root" true
      [.file "a.jpg",
       .dir "locked" false [.file "x.pdf", .file "y.pdf"],
       .dir "open" true [.file "z.mp4"]])) =
      .ok (⟨2, 2, [("Images", 1), ("Videos", 1)]⟩, [(1, 2), (2, 2)]) := by
  rw [count_eq]
  have h : allDirs (some (FS.dir "root" true
      [.file "a.jpg",
       .dir "locked" false [.file "x.pdf", .file "y.pdf"],
       .dir "open" true [.file "z.mp4"]])) =
      [FS.dir "root" true
        [.file "a.jpg",
         .dir "locked" false [.file "x.pdf", .file "y.pdf"],
         .dir "open" true [.file "z.mp4"]],
       FS.dir "open" true [.file "z.mp4"]] := by
    simp [allDirs, walkFS, walkList]
  rw [h]; rfl

/-- Claim C1 counterexample: for the non-existent root path, the scan does
not fail with `NotFound`; it returns the successful zero-valued result
`(0 files, 0 folders, empty category_counts)` and fires no progress
callback — `os.walk` swallows the `FileNotFoundError` of its initial
`scandir`, so the discovery list is empty and the function falls through
to a normal return. -/
theorem C1_counterexample :
    count_files_with_details none = Except.ok (⟨0, 0, []⟩, []) ∧
    count_files_with_details none ≠ Except.error ScanError.NotFound :=
  ⟨rfl, by rw [count_eq]; simp⟩

/-- Claim C1 (amended): scanning a root path that does not exist returns a
successful zero-valued `ScanResult` (`total_files = 0`,
`folder_count = 0`, empty `category_counts`), with no progress callback
invocation, rather than a `NotFound` failure. -/
theorem C1_missing_root_zero_success :
    count_files_with_details none = Except.ok (⟨0, 0, []⟩, []) := rfl

/-- Claim C2 counterexample: a root that exists but cannot be listed is
not reported as `PermissionDenied`; the scan silently returns the
zero-valued success, exactly as for a missing root. -/
theorem C2_counterexample :
    count_files_with_details (some (.dir "root" false [.file "a.jpg"])) =
      Except.ok (⟨0, 0, []⟩, []) ∧
    count_files_with_details (some (.dir "root" false [.file "a.jpg"])) ≠
      Except.error ScanError.PermissionDenied := by
  have h : allDirs (some (FS.dir "root" false [.file "a.jpg"])) = [] := by
    simp [allDirs, walkFS]
  exact ⟨by rw [count_eq, h]; rfl, by rw [count_eq]; simp⟩

/-- Claim C2 (amended): for every root directory that exists but cannot be
listed (access denied at the root itself), the scan silently returns the
successful zero-valued `ScanResult` with no progress callbacks — the
root-level denial is swallowed inside `os.walk` and never surfaced, so it
is not distinguishable from per-subdirectory denial by any error, nor from
a missing root. -/
theorem C2_denied_root_zero_success (n : String) (cs : List FS) :
    count_files_with_details (some (.dir n false cs)) =
      Except.ok (⟨0, 0, []⟩, []) := by
  have h : allDirs (some (FS.dir n false cs)) = [] := by simp [allDirs, walkFS]
  rw [count_eq, h]; rfl

/-- Claim C3: for every scan that returns a `ScanResult`, the sum of the
values of `category_counts` equals `total_files` — each counted file bumps
exactly one category tally. -/
theorem C3_category_sum_eq_total (root : Option FS) (st : ScanResult)
    (calls : List (Nat × Nat))
    (h : count_files_with_details root = .ok (st, calls)) :
    sumCounts st.category_counts = st.total_files := by
  obtain ⟨hst, -⟩ := count_ok_inv root st calls h
  subst hst
  obtain ⟨h1, -, h3⟩ := foldl_scanDir (allDirs root) ⟨0, 0, []⟩
  rw [h1, h3]
  rfl

/-- Witness for C3 at the spec's sample tree. -/
theorem C3_witness :
    sumCounts (ScanResult.mk 3 1
      [("Images", 1), ("Audio", 1), ("Other", 1)]).category_counts =
      (ScanResult.mk 3 1
        [("Images", 1), ("Audio", 1), ("Other", 1)]).total_files :=
  C3_category_sum_eq_total
    (some (FS.dir "root" true
      [.file "a.jpg", .file "b.mp3", .file "c.xyz", .dir "sub" true []]))
    ⟨3, 1, [("Images", 1), ("Audio", 1), ("Other", 1)]⟩ [(1, 2), (2, 2)]
    sampleTree_count

/-- Claim C4: every file name whose (lowercased) extension is `".bat"` or
`".cmd"` is categorized as `"Scripts"`, the first matching label in the
table's fixed order — `"Scripts"` precedes `"Applications"`, the only
other category listing these extensions. -/
theorem C4_bat_cmd_scripts (name : String)
    (h : strLower (splitext name).2 = ".bat" ∨
         strLower (splitext name).2 = ".cmd") :
    categorize_file name = "Scripts" := by
  rcases h with h | h <;> simp only [categorize_file, h] <;> rfl

/-- Witness for C4 at the upper-case name `"setup.BAT"`. -/
theorem C4_witness :
    (strLower (splitext "setup.BAT").2 = ".bat" ∨
     strLower (splitext "setup.BAT").2 = ".cmd") ∧
    categorize_file "setup.BAT" = "Scripts" :=
  ⟨Or.inl (by decide), C4_bat_cmd_scripts "setup.BAT" (Or.inl (by decide))⟩

/-- Claim C5: whenever the discovery pass finds at least one directory,
the recorded progress invocations number one per discovered directory, the
`i`-th (0-based) reports `(i + 1, total)`, the `current` components are
strictly increasing, the first call is `(1, total)` and the last is
`(total, total)`. -/
theorem C5_progress (root : Option FS) (st : ScanResult)
    (calls : List (Nat × Nat))
    (h : count_files_with_details root = .ok (st, calls))
    (hn : 1 ≤ (allDirs root).length) :
    calls.length = (allDirs root).length ∧
    (∀ i (hi : i < calls.length),
      calls.get ⟨i, hi⟩ = (i + 1, (allDirs root).length)) ∧
    List.Chain' (fun a b => a.1 < b.1) calls ∧
    calls.head? = some (1, (allDirs root).length) ∧
    calls.getLast? = some ((allDirs root).length, (allDirs root).length) := by
  obtain ⟨-, hcalls⟩ := count_ok_inv root st calls h
  subst hcalls
  exact ⟨progressCalls_length _, fun i hi => progressCalls_get _ i hi,
    progressCalls_chain _, progressCalls_head _ hn, progressCalls_last _ hn⟩

/-- Witness for C5 at the spec's sample tree (two directories). -/
theorem C5_witness :
    ([(1, 2), (2, 2)] : List (Nat × Nat)).length =
      (allDirs (some (FS.dir "root" true
        [.file "a.jpg", .file "b.mp3", .file "c.xyz",
         .dir "sub" true []]))).length ∧
    (∀ i (hi : i < ([(1, 2), (2, 2)] : List (Nat × Nat)).length),
      ([(1, 2), (2, 2)] : List (Nat × Nat)).get ⟨i, hi⟩ =
        (i + 1, (allDirs (some (FS.dir "root" true
          [.file "a.jpg", .file "b.mp3", .file "c.xyz",
           .dir "sub" true []]))).length)) ∧
    List.Chain' (fun a b => a.1 < b.1) ([(1, 2), (2, 2)] : List (Nat × Nat)) ∧
    ([(1, 2), (2, 2)] : List (Nat × Nat)).head? =
      some (1, (allDirs (some (FS.dir "root" true
        [.file "a.jpg", .file "b.mp3", .file "c.xyz",
         .dir "sub" true []]))).length) ∧
    ([(1, 2), (2, 2)] : List (Nat × Nat)).getLast? =
      some ((allDirs (some (FS.dir "root" true
        [.file "a.jpg", .file "b.mp3", .file "c.xyz",
         .dir "sub" true []]))).length,
        (allDirs (some (FS.dir "root" true
          [.file "a.jpg", .file "b.mp3", .file "c.xyz",
           .dir "sub" true []]))).length) :=
  C5_progress
    (some (FS.dir "root" true
      [.file "a.jpg", .file "b.mp3", .file "c.xyz", .dir "sub" true []]))
    ⟨3, 1, [("Images", 1), ("Audio", 1), ("Other", 1)]⟩ [(1, 2), (2, 2)]
    sampleTree_count (by rw [sampleTree_allDirs]; decide)

/-- Claim C6: `categorize_file` always returns one of the seven category
labels or `"Other"` (it is a total pure function of the name alone), and
returns `"Other"` both when the name has no extension and when its
lowercased extension occurs in no row of the table. -/
theorem C6_categorize_total (name : String) :
    categorize_file name ∈ categoryLabels ∧
    ((splitext name).2 = "" → categorize_file name = "Other") ∧
    ((∀ cat ∈ FILE_CATEGORIES, strLower (splitext name).2 ∉ cat.2) →
      categorize_file name = "Other") := by
  refine ⟨?_, ?_, ?_⟩
  · rcases hfind : FILE_CATEGORIES.find?
        (fun c => c.2.contains (strLower (splitext name).2)) with - | c
    · simp only [categorize_file]
      rw [hfind]
      simp [categoryLabels]
    · have hc : c ∈ FILE_CATEGORIES := List.mem_of_find?_eq_some hfind
      simp only [categorize_file]
      rw [hfind]
      simp only [FILE_CATEGORIES, List.mem_cons, List.not_mem_nil, or_false] at hc
      rcases hc with rfl | rfl | rfl | rfl | rfl | rfl | rfl <;> simp [categoryLabels]
  · intro h0
    have hext : strLower (splitext name).2 = "" := by rw [h0]; rfl
    simp only [categorize_file, hext]
    rfl
  · intro hall
    have hnone : FILE_CATEGORIES.find?
        (fun c => c.2.contains (strLower (splitext name).2)) = none := by
      rw [List.find?_eq_none]
      intro c hc
      simpa using hall c hc
    simp only [categorize_file]
    rw [hnone]

/-- Witness for C6: an unknown extension and an extensionless name both
land in `"Other"`, which is among the fixed labels. -/
theorem C6_witness :
    categorize_file "notes.xyz" ∈ categoryLabels ∧
    categorize_file "notes.xyz" = "Other" ∧
    categorize_file "README" = "Other" :=
  ⟨(C6_categorize_total "notes.xyz").1,
   (C6_categorize_total "notes.xyz").2.2 (by decide),
   (C6_categorize_total "README").2.1 (by decide)⟩

/-- Claim C7: for every tree whose root is accessible but in which some
directory is denied, the scan still returns successfully (`.ok`, no
exception), its file total is exactly the spec's reachable-file count
(denied directories contribute none of their entries) and its folder total
the spec's reachable-folder count. -/
theorem C7_subdir_denial_tolerated (n : String) (cs : List FS)
    (hsub : allAccessibleList cs = false) :
    ∃ st calls,
      count_files_with_details (some (FS.dir n true cs)) =
        Except.ok (st, calls) ∧
      st.total_files = specFiles (FS.dir n true cs) ∧
      st.folder_count = specFolders (FS.dir n true cs) := by
  refine ⟨(allDirs (some (FS.dir n true cs))).foldl scanDir ⟨0, 0, []⟩,
    progressCalls (allDirs (some (FS.dir n true cs))).length,
    count_eq _, ?_, ?_⟩
  · obtain ⟨h1, -, -⟩ := foldl_scanDir (allDirs (some (FS.dir n true cs))) ⟨0, 0, []⟩
    rw [h1]
    simp [allDirs, walk_files]
  · obtain ⟨-, h2, -⟩ := foldl_scanDir (allDirs (some (FS.dir n true cs))) ⟨0, 0, []⟩
    rw [h2]
    simp [allDirs, walk_folders]

/-- Witness for C7 at a tree with a denied subdirectory `locked`. -/
theorem C7_witness :
    allAccessibleList
      [FS.file "a.jpg",
       FS.dir "locked" false [.file "x.pdf", .file "y.pdf"],
       FS.dir "open" true [.file "z.mp4"]] = false ∧
    (∃ st calls,
      count_files_with_details (some (FS.dir "root" true
        [FS.file "a.jpg",
         FS.dir "locked" false [.file "x.pdf", .file "y.pdf"],
         FS.dir "open" true [.file "z.mp4"]])) = Except.ok (st, calls) ∧
      st.total_files = specFiles (FS.dir "root" true
        [FS.file "a.jpg",
         FS.dir "locked" false [.file "x.pdf", .file "y.pdf"],
         FS.dir "open" true [.file "z.mp4"]]) ∧
      st.folder_count = specFolders (FS.dir "root" true
        [FS.file "a.jpg",
         FS.dir "locked" false [.file "x.pdf", .file "y.pdf"],
         FS.dir "open" true [.file "z.mp4"]])) :=
  ⟨by simp [allAccessibleList, allAccessible],
   C7_subdir_denial_tolerated "root"
     [FS.file "a.jpg",
      FS.dir "locked" false [.file "x.pdf", .file "y.pdf"],
      FS.dir "open" true [.file "z.mp4"]]
     (by simp [allAccessibleList, allAccessible])⟩

/-- Claim C8: scanning the root holding exactly `a.jpg`, `b.mp3`, `c.xyz`
and the empty subfolder `sub` yields 3 files, 1 folder and the category
map `Images ↦ 1, Audio ↦ 1, Other ↦ 1`; scanning a root with zero entries
yields 0 files, 0 folders and an empty category map. -/
theorem C8_sample_and_empty :
    count_files_with_details (some (FS.dir "root" true
      [.file "a.jpg", .file "b.mp3", .file "c.xyz", .dir "sub" true []])) =
      .ok (⟨3, 1, [("Images", 1), ("Audio", 1), ("Other", 1)]⟩,
           [(1, 2), (2, 2)]) ∧
    count_files_with_details (some (FS.dir "root" true [])) =
      .ok (⟨0, 0, []⟩, [(1, 1)]) := by
  refine ⟨sampleTree_count, ?_⟩
  have h : allDirs (some (FS.dir "root" true [])) = [FS.dir "root" true []] := by
    simp [allDirs, walkFS, walkList]
  rw [count_eq, h]; rfl

/-- Claim C9: every name that is a single leading dot followed by a known
extension (every extension string of the table, such as `".jpg"` or
`".py"`, is itself such a name) is categorized `"Other"`:
`os.path.splitext` treats the leading-dot name as extensionless. -/
theorem C9_dotfile_other :
    ∀ cat ∈ FILE_CATEGORIES, ∀ e ∈ cat.2, categorize_file e = "Other" := by
  decide

/-- Witness for C9 at the dotfile `".jpg"`. -/
theorem C9_witness : categorize_file ".jpg" = "Other" :=
  C9_dotfile_other
    ("Images", [".jpg", ".jpeg", ".png", ".gif", ".bmp", ".tiff", ".svg", ".webp"])
    (by decide) ".jpg" (by decide)

/-- Claim C10: on a fully accessible tree, the root directory is never
counted in `total_folders`: the folder total is exactly the number of
directories enumerated by the discovery pass minus one (each non-root
directory is counted once, as an entry of its parent). -/
theorem C10_root_not_counted (n : String) (cs : List FS) (st : ScanResult)
    (calls : List (Nat × Nat))
    (hacc : allAccessible (FS.dir n true cs) = true)
    (h : count_files_with_details (some (FS.dir n true cs)) =
      Except.ok (st, calls)) :
    st.folder_count + 1 = (allDirs (some (FS.dir n true cs))).length := by
  obtain ⟨hst, -⟩ := count_ok_inv _ st calls h
  subst hst
  obtain ⟨-, h2, -⟩ := foldl_scanDir (allDirs (some (FS.dir n true cs))) ⟨0, 0, []⟩
  rw [h2]
  have hw := walk_length_acc (FS.dir n true cs) hacc
  simp only [isDir, if_true] at hw
  simp [allDirs, walk_folders, hw]

/-- Witness for C10 at the fully accessible sample tree: one counted
folder, two discovered directories. -/
theorem C10_witness :
    (ScanResult.mk 3 1
      [("Images", 1), ("Audio", 1), ("Other", 1)]).folder_count + 1 =
      (allDirs (some (FS.dir "root" true
        [.file "a.jpg", .file "b.mp3", .file "c.xyz",
         .dir "sub" true []]))).length :=
  C10_root_not_counted "root"
    [.file "a.jpg", .file "b.mp3", .file "c.xyz", .dir "sub" true []]
    ⟨3, 1, [("Images", 1), ("Audio", 1), ("Other", 1)]⟩ [(1, 2), (2, 2)]
    (by simp [allAccessible, allAccessibleList]) sampleTree_count
